import Mathlib

/-!
Shallow embedding of `Python Script/Scraper.py`, a sitemap-driven PDF
scraper that mirrors the discovered PDF set into a remote storage folder.

External collaborators (the HTTP client, the HTML parser, `urllib.parse.urljoin`,
`mimetypes.guess_type`, and the remote-store API) are modelled as oracle
parameters; the script's own control flow and data handling are translated
directly from the source.
-/

namespace Scraper

/-- Boolean test that `n` is a leading segment of `h` (elementwise equality). -/
def leadsWith : List Char → List Char → Bool
  | [], _ => true
  | _ :: _, [] => false
  | a :: as, b :: bs => a == b && leadsWith as bs

/-- Boolean substring containment on character lists, mirroring Python's
`needle in haystack` for strings: `n` occurs contiguously inside `h`. -/
def containsSub (n : List Char) : List Char → Bool
  | [] => n.isEmpty
  | b :: bs => leadsWith n (b :: bs) || containsSub n bs

/-- Model of `os.path.basename` (POSIX): the suffix of the string after the
last `'/'` character, i.e. the longest `'/'`-free suffix. -/
def os_path_basename (s : String) : String :=
  String.mk ((s.toList.reverse.takeWhile (fun c => c != '/')).reverse)

/-- The locale filter substring hardcoded in `get_sitemap_urls`
(`"en-US" in url`). -/
def LOCALE : String := "en-US"

/-- Outcome of `requests.get(sitemap_url)` followed by `ET.fromstring`:
`exn` models a raised exception (network failure in `requests.get`, or an
unparseable body in `ET.fromstring`) which the script does not catch;
`resp status locs` models a response with the given HTTP status whose body
parses to `loc` elements with the given texts. -/
inductive SitemapFetch where
  | exn : SitemapFetch
  | resp (status : Nat) (locs : List String) : SitemapFetch
deriving DecidableEq, Repr

/-- `get_sitemap_urls` (Scraper.py lines 42-49): on a raised exception the
error propagates out of the function (modelled as `Except.error`); on a
non-200 status it logs and returns `[]`; otherwise it returns the `loc`
texts filtered by the substring test `"en-US" in url`. -/
def get_sitemap_urls : SitemapFetch → Except Unit (List String)
  | SitemapFetch.exn => Except.error ()
  | SitemapFetch.resp status locs =>
    if status ≠ 200 then Except.ok []
    else Except.ok (locs.filter (fun url => containsSub LOCALE.toList url.toList))

/-- `is_pdf_url` (lines 52-57). `uj` models `urllib.parse.urljoin` and
`guess` models `mimetypes.guess_type`'s first component, both external
library functions taken as oracles. -/
def is_pdf_url (uj : String → String → String) (guess : String → Option String)
    (href base_url : String) : Bool :=
  let full_url := uj base_url href
  if containsSub ".pdf".toList full_url.toLower.toList then true
  else guess full_url == some "application/pdf"

/-- A fetched-and-parsed page, as `find_pdf_links` consumes it: the HTTP
status, the `href` values of all `<a href=...>` tags in document order, and
the `src` values of all `<iframe>`/`<embed>` tags in document order. -/
structure Page where
  status : Nat
  anchors : List String
  embeds : List String
deriving DecidableEq, Repr

/-- `find_pdf_links` (lines 60-78). The whole body sits in a
`try`/`except` returning `[]`, so a raised exception (`none` page) yields
`[]`; a non-200 status yields `[]`; otherwise anchors then iframe/embed
sources classified by `is_pdf_url` are resolved with `urljoin` and the
result is passed through `list(set(...))`, modelled by `List.dedup` (the
Python order is unspecified; only set membership and duplicate-freeness are
observable to the rest of the program). -/
def find_pdf_links (uj : String → String → String) (guess : String → Option String)
    (page_url : String) (res : Option Page) : List String :=
  match res with
  | none => []
  | some p =>
    if p.status ≠ 200 then []
    else
      let fromAnchors := (p.anchors.filter (fun h => is_pdf_url uj guess h page_url)).map
        (fun h => uj page_url h)
      let fromEmbeds := (p.embeds.filter (fun s => is_pdf_url uj guess s page_url)).map
        (fun s => uj page_url s)
      (fromAnchors ++ fromEmbeds).dedup

/-- Python `set.add` on a set modelled as a duplicate-free list. -/
def addToSet (n : String) (s : List String) : List String :=
  if n ∈ s then s else n :: s

/-- Writing a file named `n` into the local staging directory (an
`open(local_path, "wb")` that overwrites any same-named file). -/
def addLocal (n : String) (ls : List String) : List String :=
  if n ∈ ls then ls else n :: ls

/-- `os.remove(local_path)`: the staged file named `n` disappears. -/
def removeLocal (n : String) (ls : List String) : List String :=
  ls.filter (fun m => m != n)

/-- `download_and_upload_pdf` (lines 132-148), as a transformer of the pair
(`todays_filenames`, local staging-directory contents). `download pdf_url =
true` models `requests.get` succeeding with status 200 and the body
streaming to disk; `upload pdf_url = true` models `upload_to_drive`
completing. The whole body is inside `try`/`except`, so when the upload
raises, control jumps to the handler: the filename is NOT added to
`todays_filenames` and — because `os.remove(local_path)` is placed after
the upload inside the `try` — the staged local file is NOT removed. -/
def download_and_upload_pdf (download upload : String → Bool) (pdf_url : String)
    (st : List String × List String) : List String × List String :=
  let filename := os_path_basename pdf_url
  if download pdf_url then
    let locals1 := addLocal filename st.2
    if upload pdf_url then
      (addToSet filename st.1, removeLocal filename locals1)
    else
      (st.1, locals1)
  else
    (st.1, st.2)

/-- A `(id, name)` file entry as returned by the Drive listing. -/
structure RemoteFile where
  id : String
  name : String
deriving DecidableEq, Repr

/-- `clean_up_old_files` (lines 151-156): iterate over the fresh listing in
order; for each file whose name is not in `todays_filenames`, call
`service.files().delete(...)`. `deleteOk fileId = false` models that call
raising; the loop has no `try`/`except`, so the exception propagates and no
further file is examined. Returns the files actually deleted, in order,
paired with the id whose deletion raised (if any). -/
def clean_up_old_files (deleteOk : String → Bool) (existing : List RemoteFile)
    (todays : List String) : List RemoteFile × Option String :=
  match existing with
  | [] => ([], none)
  | f :: rest =>
    if f.name ∈ todays then clean_up_old_files deleteOk rest todays
    else if deleteOk f.id then
      let r := clean_up_old_files deleteOk rest todays
      (f :: r.1, r.2)
    else ([], some f.id)

/-- The external world one run of `main` observes: the sitemap fetch
outcome, the per-page fetch outcomes, the `urljoin`/`guess_type` library
oracles, the per-URL download and upload outcomes, the fresh Drive folder
listing, and the per-id delete outcomes. -/
structure World where
  sitemap : SitemapFetch
  pages : String → Option Page
  uj : String → String → String
  guess : String → Option String
  download : String → Bool
  upload : String → Bool
  listing : List RemoteFile
  deleteOk : String → Bool

/-- Observable outcome of one run of `main`: the final `todays_filenames`,
the local staging files left behind, the remote files deleted, and the id
of a failed deletion if `clean_up_old_files` raised. -/
structure RunResult where
  todays : List String
  locals : List String
  deleted : List RemoteFile
  deleteError : Option String
deriving DecidableEq, Repr

/-- `main` (lines 159-177): fetch the sitemap URLs (an uncaught exception
there aborts the run, modelled as `Except.error`); for each URL extract the
PDF links and run `download_and_upload_pdf` on each, threading
`todays_filenames` and the staging directory; finally reconcile with
`clean_up_old_files`. The `if pdf_links:` guard in the source is
behaviourally the identity (a fold over `[]` is a no-op). -/
def runMain (w : World) : Except Unit RunResult :=
  match get_sitemap_urls w.sitemap with
  | Except.error e => Except.error e
  | Except.ok urls =>
    let st := urls.foldl
      (fun acc url =>
        (find_pdf_links w.uj w.guess url (w.pages url)).foldl
          (fun a pdf => download_and_upload_pdf w.download w.upload pdf a) acc)
      ([], [])
    let cu := clean_up_old_files w.deleteOk w.listing st.1
    Except.ok ⟨st.1, st.2, cu.1, cu.2⟩

/-! ### Equation lemmas for `clean_up_old_files` -/

theorem clean_up_cons_kept (d : String → Bool) (g : RemoteFile) (rest : List RemoteFile)
    (todays : List String) (hg : g.name ∈ todays) :
    clean_up_old_files d (g :: rest) todays = clean_up_old_files d rest todays := by
  simp [clean_up_old_files, hg]

theorem clean_up_cons_del (d : String → Bool) (g : RemoteFile) (rest : List RemoteFile)
    (todays : List String) (hg : g.name ∉ todays) (hd : d g.id = true) :
    clean_up_old_files d (g :: rest) todays
      = (g :: (clean_up_old_files d rest todays).1, (clean_up_old_files d rest todays).2) := by
  simp [clean_up_old_files, hg, hd]

theorem clean_up_cons_fail (d : String → Bool) (g : RemoteFile) (rest : List RemoteFile)
    (todays : List String) (hg : g.name ∉ todays) (hd : d g.id = false) :
    clean_up_old_files d (g :: rest) todays = ([], some g.id) := by
  simp [clean_up_old_files, hg, hd]

/-- Safety: every deleted file had a name outside `todays`, whatever the
delete outcomes were. -/
theorem clean_up_deleted_name_not_mem (d : String → Bool) (existing : List RemoteFile)
    (todays : List String) :
    ∀ f ∈ (clean_up_old_files d existing todays).1, f.name ∉ todays := by
  induction existing with
  | nil => simp [clean_up_old_files]
  | cons g rest ih =>
    by_cases hg : g.name ∈ todays
    · rw [clean_up_cons_kept d g rest todays hg]; exact ih
    · by_cases hd : d g.id = true
      · rw [clean_up_cons_del d g rest todays hg hd]
        intro f hf
        rcases List.mem_cons.mp hf with rfl | hf
        · exact hg
        · exact ih f hf
      · rw [clean_up_cons_fail d g rest todays hg (Bool.not_eq_true _ |>.mp hd)]
        intro f hf
        simp at hf

/-- When every delete succeeds, the deleted files are exactly the listed
files whose name is outside `todays`. -/
theorem clean_up_mem_iff (d : String → Bool) (existing : List RemoteFile)
    (todays : List String) (hd : ∀ i, d i = true) (f : RemoteFile) :
    f ∈ (clean_up_old_files d existing todays).1 ↔ f ∈ existing ∧ f.name ∉ todays := by
  induction existing with
  | nil => simp [clean_up_old_files]
  | cons g rest ih =>
    by_cases hg : g.name ∈ todays
    · rw [clean_up_cons_kept d g rest todays hg, ih]
      constructor
      · rintro ⟨hf, hn⟩; exact ⟨List.mem_cons_of_mem _ hf, hn⟩
      · rintro ⟨hf, hn⟩
        rcases List.mem_cons.mp hf with rfl | hf
        · exact absurd hg hn
        · exact ⟨hf, hn⟩
    · rw [clean_up_cons_del d g rest todays hg (hd g.id)]
      constructor
      · intro hf
        rcases List.mem_cons.mp hf with rfl | hf
        · exact ⟨List.mem_cons_self _ _, hg⟩
        · rcases ih.mp hf with ⟨hf', hn⟩
          exact ⟨List.mem_cons_of_mem _ hf', hn⟩
      · rintro ⟨hf, hn⟩
        rcases List.mem_cons.mp hf with rfl | hf
        · exact List.mem_cons_self _ _
        · exact List.mem_cons_of_mem _ (ih.mpr ⟨hf, hn⟩)

/-- When every listed file's name is in `todays`, no delete is even
attempted: the loop is a no-op whatever the delete oracle. -/
theorem clean_up_all_kept (d : String → Bool) (existing : List RemoteFile)
    (todays : List String) (h : ∀ f ∈ existing, f.name ∈ todays) :
    clean_up_old_files d existing todays = ([], none) := by
  induction existing with
  | nil => rfl
  | cons g rest ih =>
    rw [clean_up_cons_kept d g rest todays (h g (List.mem_cons_self _ _))]
    exact ih fun f hf => h f (List.mem_cons_of_mem _ hf)

/-- With an empty expected set and every delete succeeding, every listed
file is deleted and no error occurs. -/
theorem clean_up_empty_todays (d : String → Bool) (existing : List RemoteFile)
    (hd : ∀ i, d i = true) :
    clean_up_old_files d existing [] = (existing, none) := by
  induction existing with
  | nil => rfl
  | cons g rest ih =>
    rw [clean_up_cons_del d g rest [] (by simp) (hd g.id), ih]

/-! ### Claim theorems: the Reconciler -/

/-- **C1.** `clean_up_old_files` deletes exactly the listed remote files
whose name is absent from `todays_filenames`: a file whose name is in the
set is never deleted, in any run (whatever the delete outcomes), and when
every delete succeeds a listed file is deleted iff its name is outside the
set. -/
theorem reconciler_deletes_exactly_unexpected (d : String → Bool)
    (existing : List RemoteFile) (todays : List String) :
    (∀ f ∈ (clean_up_old_files d existing todays).1, f.name ∉ todays)
    ∧ ((∀ i, d i = true) →
      ∀ f, f ∈ (clean_up_old_files d existing todays).1 ↔ f ∈ existing ∧ f.name ∉ todays) :=
  ⟨clean_up_deleted_name_not_mem d existing todays,
   fun hd f => clean_up_mem_iff d existing todays hd f⟩

theorem reconciler_deletes_exactly_unexpected_witness :
    (⟨"i2", "b.pdf"⟩ : RemoteFile) ∈
      (clean_up_old_files (fun _ => true)
        [⟨"i1", "a.pdf"⟩, ⟨"i2", "b.pdf"⟩] ["a.pdf"]).1 :=
  ((reconciler_deletes_exactly_unexpected (fun _ => true)
      [⟨"i1", "a.pdf"⟩, ⟨"i2", "b.pdf"⟩] ["a.pdf"]).2 (fun _ => rfl)
    ⟨"i2", "b.pdf"⟩).mpr ⟨by decide, by decide⟩

/-- **C5.** Contrary to the claim, a single failed deletion aborts the
remaining deletions: with two stale files (`todays_filenames` empty) and
the delete of `"id1"` raising, `clean_up_old_files` stops at the first
file — `b.pdf` is never attempted — and the exception propagates out of
the loop (so the run as a whole fails). -/
theorem delete_failure_aborts_remaining_deletions :
    clean_up_old_files (fun i => i != "id1")
      [⟨"id1", "a.pdf"⟩, ⟨"id2", "b.pdf"⟩] [] = ([], some "id1") := by
  decide

/-- **C6.** Reconciler idempotence: after a first reconciliation run in
which every delete succeeded, the surviving remote files (the listed files
minus the deleted ones) all have names in the expected set, so a second
reconciliation with the same `todays_filenames` deletes nothing and raises
nothing, whatever its delete oracle. -/
theorem reconciler_idempotent (d1 d2 : String → Bool) (existing : List RemoteFile)
    (todays : List String) (hd : ∀ i, d1 i = true) :
    clean_up_old_files d2
      (existing.filter (fun f => decide (f ∉ (clean_up_old_files d1 existing todays).1)))
      todays = ([], none) := by
  apply clean_up_all_kept
  intro f hf
  have h1 := List.mem_filter.mp hf
  have h2 : f ∉ (clean_up_old_files d1 existing todays).1 := of_decide_eq_true h1.2
  by_contra hn
  exact h2 ((clean_up_mem_iff d1 existing todays hd f).mpr ⟨h1.1, hn⟩)

theorem reconciler_idempotent_witness :
    clean_up_old_files (fun _ => true)
      ([⟨"i1", "a.pdf"⟩, ⟨"i2", "b.pdf"⟩].filter
        (fun f => decide (f ∉ (clean_up_old_files (fun _ => true)
          [⟨"i1", "a.pdf"⟩, ⟨"i2", "b.pdf"⟩] ["a.pdf"]).1)))
      ["a.pdf"] = ([], none) :=
  reconciler_idempotent (fun _ => true) (fun _ => true)
    [⟨"i1", "a.pdf"⟩, ⟨"i2", "b.pdf"⟩] ["a.pdf"] (fun _ => rfl)

/-! ### The substring test agrees with contiguous-substring decomposition -/

theorem leadsWith_iff (n : List Char) : ∀ h : List Char,
    leadsWith n h = true ↔ ∃ t, n ++ t = h := by
  induction n with
  | nil => intro h; simp [leadsWith]
  | cons a as ih =>
    intro h
    cases h with
    | nil => simp [leadsWith]
    | cons b bs =>
      simp only [leadsWith, Bool.and_eq_true, beq_iff_eq, ih, List.cons_append,
        List.cons.injEq]
      constructor
      · rintro ⟨rfl, t, rfl⟩; exact ⟨t, rfl, rfl⟩
      · rintro ⟨t, rfl, rfl⟩; exact ⟨rfl, t, rfl⟩

theorem containsSub_iff (n : List Char) : ∀ h : List Char,
    containsSub n h = true ↔ ∃ l r, l ++ n ++ r = h := by
  intro h
  induction h with
  | nil =>
    simp only [containsSub, List.isEmpty_iff]
    constructor
    · rintro rfl; exact ⟨[], [], rfl⟩
    · rintro ⟨l, r, hl⟩
      rcases List.append_eq_nil.mp hl with ⟨hln, hr⟩
      exact (List.append_eq_nil.mp hln).2
  | cons b bs ih =>
    simp only [containsSub, Bool.or_eq_true, leadsWith_iff, ih]
    constructor
    · rintro (⟨t, ht⟩ | ⟨l, r, hl⟩)
      · exact ⟨[], t, by simpa using ht⟩
      · exact ⟨b :: l, r, by simp [hl]⟩
    · rintro ⟨l, r, hl⟩
      cases l with
      | nil => exact Or.inl ⟨r, by simpa using hl⟩
      | cons c cs =>
        rcases List.cons.inj (by simpa using hl) with ⟨rfl, h2⟩
        exact Or.inr ⟨cs, r, by rw [List.append_assoc]; exact h2⟩

/-! ### Claim theorems: Source Enumerator and Link Extractor -/

/-- **C7.** On a successful (status-200) sitemap fetch, every URL returned
by `get_sitemap_urls` is one of the sitemap's `loc` texts, and contains the
locale filter substring `"en-US"` as a contiguous substring. -/
theorem sitemap_urls_subset_and_locale (status : Nat) (locs urls : List String)
    (hs : status = 200)
    (hu : get_sitemap_urls (SitemapFetch.resp status locs) = Except.ok urls) :
    ∀ u ∈ urls, u ∈ locs ∧ ∃ l r, l ++ LOCALE.toList ++ r = u.toList := by
  subst hs
  simp only [get_sitemap_urls, ne_eq, not_true_eq_false, if_false, Except.ok.injEq] at hu
  subst hu
  intro u hu'
  have h1 := List.mem_filter.mp hu'
  exact ⟨h1.1, (containsSub_iff LOCALE.toList u.toList).mp h1.2⟩

theorem sitemap_urls_subset_and_locale_witness :
    "https://x/en-US/a" ∈ ["https://x/en-US/a", "https://x/fr-FR/b"]
    ∧ ∃ l r, l ++ LOCALE.toList ++ r = "https://x/en-US/a".toList :=
  sitemap_urls_subset_and_locale 200 ["https://x/en-US/a", "https://x/fr-FR/b"]
    ["https://x/en-US/a"] rfl rfl "https://x/en-US/a" (by decide)

/-- **C8.** `find_pdf_links` always returns a duplicate-free list (set
semantics, via `list(set(...))`); a raised exception while fetching or
parsing the page yields `[]`, and a non-200 response yields `[]`, so one
failing page contributes nothing and never aborts the run (the function
is total). -/
theorem find_pdf_links_nodup_and_failure_empty (uj : String → String → String)
    (guess : String → Option String) (page_url : String) (res : Option Page) :
    (find_pdf_links uj guess page_url res).Nodup
    ∧ (res = none → find_pdf_links uj guess page_url res = [])
    ∧ (∀ p : Page, res = some p → p.status ≠ 200 →
        find_pdf_links uj guess page_url res = []) := by
  refine ⟨?_, ?_, ?_⟩
  · cases res with
    | none => simp [find_pdf_links]
    | some p =>
      by_cases hs : p.status = 200
      · simp only [find_pdf_links, hs, ne_eq, not_true_eq_false, if_false]
        exact List.nodup_dedup _
      · simp [find_pdf_links, hs]
  · rintro rfl; rfl
  · rintro p rfl hs
    simp [find_pdf_links, hs]

theorem find_pdf_links_nodup_and_failure_empty_witness :
    find_pdf_links (fun _ h => h) (fun _ => none) "p" (some ⟨500, ["a.pdf"], []⟩) = [] :=
  (find_pdf_links_nodup_and_failure_empty (fun _ h => h) (fun _ => none) "p"
    (some ⟨500, ["a.pdf"], []⟩)).2.2 ⟨500, ["a.pdf"], []⟩ rfl (by decide)

/-! ### Claim theorems: Fetch-and-Stage Pipeline and Orchestrator -/

/-- **C3.** `todays_filenames` grows only on upload success: if the upload
raises, the set is unchanged (mere download success adds nothing); if both
download and upload succeed the derived filename is in the set; and any
remote file whose name ended up outside the resulting set — in particular
a same-named leftover of a failed upload — is deleted by a reconciliation
run in which deletes succeed. -/
theorem filename_added_only_after_upload_success (download upload : String → Bool)
    (pdf_url : String) (st : List String × List String) (d : String → Bool)
    (existing : List RemoteFile) :
    (upload pdf_url = false →
      (download_and_upload_pdf download upload pdf_url st).1 = st.1)
    ∧ (download pdf_url = true → upload pdf_url = true →
        os_path_basename pdf_url ∈ (download_and_upload_pdf download upload pdf_url st).1)
    ∧ (∀ f ∈ existing, (∀ i, d i = true) →
        f.name ∉ (download_and_upload_pdf download upload pdf_url st).1 →
        f ∈ (clean_up_old_files d existing
              (download_and_upload_pdf download upload pdf_url st).1).1) := by
  refine ⟨?_, ?_, ?_⟩
  · intro hu
    by_cases hd : download pdf_url = true
    · simp [download_and_upload_pdf, hd, hu]
    · simp [download_and_upload_pdf, hd]
  · intro hd hu
    simp only [download_and_upload_pdf, hd, hu, if_true, addToSet]
    by_cases hmem : os_path_basename pdf_url ∈ st.1 <;> simp [hmem]
  · intro f hf hdel hn
    exact (clean_up_mem_iff d existing _ hdel f).mpr ⟨hf, hn⟩

theorem filename_added_only_after_upload_success_witness :
    (⟨"i", "doc2.pdf"⟩ : RemoteFile) ∈
      (clean_up_old_files (fun _ => true) [⟨"i", "doc2.pdf"⟩]
        (download_and_upload_pdf (fun _ => true) (fun _ => false)
          "https://e.com/doc2.pdf" (["doc1.pdf"], [])).1).1 :=
  (filename_added_only_after_upload_success (fun _ => true) (fun _ => false)
      "https://e.com/doc2.pdf" (["doc1.pdf"], []) (fun _ => true)
      [⟨"i", "doc2.pdf"⟩]).2.2 ⟨"i", "doc2.pdf"⟩ (by decide) (fun _ => rfl) (by decide)

/-- **C4.** Contrary to the claim, the staged local file is NOT cleaned up
on the upload-failure path: `os.remove(local_path)` sits after
`upload_to_drive` inside the `try`, so when the upload raises, control
jumps to the `except` handler and the remove is skipped. Concretely, with
the download of `https://example.com/doc2.pdf` succeeding and its upload
failing, the run leaves `doc2.pdf` in the local staging directory (while
correctly excluding it from `todays_filenames`). -/
theorem upload_failure_leaves_staged_file :
    download_and_upload_pdf (fun _ => true) (fun _ => false)
      "https://example.com/doc2.pdf" ([], []) = ([], ["doc2.pdf"]) := by
  decide

/-- **C2.** Contrary to the claim, a non-200 sitemap response does not
abort the run: `get_sitemap_urls` logs and returns `[]` (line 46), `main`
continues with an empty `todays_filenames`, and reconciliation then
deletes the pre-existing remote file `old.pdf` — a remote mutation
performed in that very run. (Only a raised exception — host unreachable,
or unparseable body — aborts the run, by uncaught propagation.) -/
theorem non200_sitemap_does_not_abort_run :
    runMain ⟨SitemapFetch.resp 404 ["https://x/en-US/a"], fun _ => none, fun _ h => h,
      fun _ => none, fun _ => false, fun _ => false,
      [⟨"id1", "old.pdf"⟩], fun _ => true⟩
      = Except.ok ⟨[], [], [⟨"id1", "old.pdf"⟩], none⟩ := by
  rfl

/-- **C10.** When the sitemap fetch yields a non-200 status,
`get_sitemap_urls` returns `Except.ok []` — indistinguishable from a
successfully fetched sitemap with no matching URL — and `main` proceeds
with an empty `todays_filenames`, so reconciliation (with deletes
succeeding) deletes every file currently listed in the remote folder. -/
theorem non200_sitemap_empty_set_deletes_all (w : World) (status : Nat)
    (locs : List String) (hs : w.sitemap = SitemapFetch.resp status locs)
    (h200 : status ≠ 200) (hd : ∀ i, w.deleteOk i = true) :
    get_sitemap_urls w.sitemap = Except.ok []
    ∧ runMain w = Except.ok ⟨[], [], w.listing, none⟩ := by
  have hge : get_sitemap_urls w.sitemap = Except.ok [] := by
    rw [hs]; simp [get_sitemap_urls, h200]
  refine ⟨hge, ?_⟩
  unfold runMain
  rw [hge]
  simp [clean_up_empty_todays w.deleteOk w.listing hd]

theorem non200_sitemap_empty_set_deletes_all_witness :
    get_sitemap_urls (SitemapFetch.resp 500 ["https://x/en-US/a"]) = Except.ok []
    ∧ runMain ⟨SitemapFetch.resp 500 ["https://x/en-US/a"], fun _ => none, fun _ h => h,
        fun _ => none, fun _ => false, fun _ => false,
        [⟨"i1", "a.pdf"⟩, ⟨"i2", "b.pdf"⟩], fun _ => true⟩
      = Except.ok ⟨[], [], [⟨"i1", "a.pdf"⟩, ⟨"i2", "b.pdf"⟩], none⟩ :=
  non200_sitemap_empty_set_deletes_all
    ⟨SitemapFetch.resp 500 ["https://x/en-US/a"], fun _ => none, fun _ h => h,
      fun _ => none, fun _ => false, fun _ => false,
      [⟨"i1", "a.pdf"⟩, ⟨"i2", "b.pdf"⟩], fun _ => true⟩
    500 ["https://x/en-US/a"] rfl (by decide) (fun _ => rfl)

/-! ### Claim theorems: filename derivation -/

/-- Any leading segment of `l₂` all of whose elements satisfy `p` is a
leading segment of `l₂.takeWhile p`. -/
theorem leading_of_takeWhile (p : Char → Bool) : ∀ l₁ l₂ : List Char,
    (∃ t, l₁ ++ t = l₂) → (∀ a ∈ l₁, p a = true) →
    ∃ t, l₁ ++ t = l₂.takeWhile p := by
  intro l₁
  induction l₁ with
  | nil => intro l₂ _ _; exact ⟨l₂.takeWhile p, rfl⟩
  | cons a as ih =>
    rintro l₂ ⟨t, rfl⟩ hp
    have hpa : p a = true := hp a (List.mem_cons_self _ _)
    have hstep : ((a :: as) ++ t).takeWhile p = a :: (as ++ t).takeWhile p := by
      simp [List.takeWhile_cons, hpa]
    rw [hstep]
    rcases ih (as ++ t) ⟨t, rfl⟩ (fun b hb => hp b (List.mem_cons_of_mem _ hb))
      with ⟨t', ht'⟩
    exact ⟨t', by rw [List.cons_append, ht']⟩

/-- **C9 (counterexample).** The filename is derived with
`os.path.basename` on the raw URL, which splits on `'/'` only: for
`https://example.com/docs/report.pdf?version=2` the derived filename is
`report.pdf?version=2` — the query string appears in it, and it is not
the final path segment `report.pdf`. -/
theorem basename_keeps_query_string :
    os_path_basename "https://example.com/docs/report.pdf?version=2"
        = "report.pdf?version=2"
    ∧ containsSub "?version=2".toList
        (os_path_basename "https://example.com/docs/report.pdf?version=2").toList
        = true := by
  decide

/-- **C9 (amended).** The filename used for local staging and remote
upload is the suffix of the full URL string after its last `'/'` — its
longest `'/'`-free suffix — so everything after the last slash, including
any query string or fragment, appears in the derived filename. -/
theorem basename_is_longest_slashfree_suffix (url : String) :
    ('/' ∉ (os_path_basename url).toList)
    ∧ (∃ t, t ++ (os_path_basename url).toList = url.toList)
    ∧ (∀ s : List Char, (∃ t, t ++ s = url.toList) → '/' ∉ s →
        ∃ t, t ++ s = (os_path_basename url).toList) := by
  have hbase : (os_path_basename url).toList
      = (url.toList.reverse.takeWhile (fun c => c != '/')).reverse := rfl
  refine ⟨?_, ?_, ?_⟩
  · rw [hbase]
    intro hc
    have h1 : '/' ∈ url.toList.reverse.takeWhile (fun c => c != '/') :=
      List.mem_reverse.mp hc
    have h2 := List.mem_takeWhile_imp h1
    simp at h2
  · rw [hbase]
    refine ⟨(url.toList.reverse.dropWhile (fun c => c != '/')).reverse, ?_⟩
    rw [← List.reverse_append, List.takeWhile_append_dropWhile, List.reverse_reverse]
  · rintro s ⟨t, ht⟩ hs
    have h1 : ∃ t', s.reverse ++ t' = url.toList.reverse :=
      ⟨t.reverse, by rw [← List.reverse_append, ht]⟩
    have h2 : ∀ a ∈ s.reverse, (fun c => c != '/') a = true := by
      intro a ha
      have ha' : a ∈ s := List.mem_reverse.mp ha
      simp only [bne_iff_ne, ne_eq]
      intro h; subst h; exact hs ha'
    rcases leading_of_takeWhile (fun c => c != '/') s.reverse url.toList.reverse h1 h2
      with ⟨t', ht'⟩
    rw [hbase]
    exact ⟨t'.reverse, by rw [← ht', List.reverse_append, List.reverse_reverse]⟩

theorem basename_is_longest_slashfree_suffix_witness :
    ∃ t, t ++ ("report.pdf?version=2").toList
      = (os_path_basename "https://example.com/docs/report.pdf?version=2").toList :=
  (basename_is_longest_slashfree_suffix
      "https://example.com/docs/report.pdf?version=2").2.2
    ("report.pdf?version=2").toList
    ⟨"https://example.com/docs/".toList, by decide⟩ (by decide)

end Scraper
